import Mathlib

/-!
# Verification of the 3-pass literary translator dispatch/state engine

Shallow embedding of `book_maker/translator/claude_3pass_translator.py`:
strings are modelled as `List Char`, the Python string operations
(`split`, `strip`, `replace`, `join`, `in`, `startswith`) are defined below,
and the translator's mutable attributes become an explicit state record.
External completion calls are modelled by an oracle giving the response of
the i-th call; `json.loads` (Python standard library, not part of the
repository) is an abstract parameter producing a `Json` value or a parse
error.
-/

namespace ThreePass

/-- Python `str.strip()`: drop leading and trailing whitespace. -/
def pyStrip (s : List Char) : List Char :=
  ((s.dropWhile Char.isWhitespace).reverse.dropWhile Char.isWhitespace).reverse

/-- Python `s.replace("\n", " ")` as used on each batch segment
(`p.strip().replace("\n", " ")` in `_translate_batch`). -/
def flattenNewlines (s : List Char) : List Char :=
  s.map (fun c => if c = '\n' then ' ' else c)

/-- Python substring membership `needle in hay`. -/
def containsSub (needle hay : List Char) : Bool :=
  (List.range (hay.length + 1)).any (fun i => needle.isPrefixOf (hay.drop i))

/-- Fuelled version of Python `str.split(sep)` for a non-empty separator.
The fuel is an upper bound on the length of the string; it only exists to
make the recursion structural. -/
def pySplitF (sep : List Char) : Nat → List Char → List (List Char)
  | _, [] => [[]]
  | 0, s => [s]
  | fuel + 1, x :: xs =>
    if sep ≠ [] ∧ sep.isPrefixOf (x :: xs) then
      [] :: pySplitF sep fuel ((x :: xs).drop sep.length)
    else
      match pySplitF sep fuel xs with
      | [] => [[x]]
      | h :: t => (x :: h) :: t

/-- Python `s.split(sep)` (non-empty `sep`): split on every non-overlapping
occurrence of `sep`, scanning left to right; `"".split(sep) = [""]`. -/
def pySplit (sep s : List Char) : List (List Char) :=
  pySplitF sep s.length s

/-- Python `sep.join(parts)`. -/
def joinWith (sep : List Char) : List (List Char) → List Char
  | [] => []
  | [x] => x
  | x :: y :: t => x ++ sep ++ joinWith sep (y :: t)

theorem pySplitF_ne_nil (sep : List Char) : ∀ (f : Nat) (s : List Char),
    pySplitF sep f s ≠ [] := by
  intro f
  induction f with
  | zero => intro s; cases s <;> simp [pySplitF]
  | succ f ih =>
    intro s
    cases s with
    | nil => simp [pySplitF]
    | cons x xs =>
      simp only [pySplitF]
      by_cases h : sep ≠ [] ∧ sep.isPrefixOf (x :: xs)
      · simp [h]
      · simp only [if_neg h]
        cases hm : pySplitF sep f xs <;> simp

theorem pySplit_ne_nil (sep s : List Char) : pySplit sep s ≠ [] :=
  pySplitF_ne_nil sep s.length s

theorem pySplitF_fuel_irrel (sep : List Char) : ∀ (f g : Nat) (s : List Char),
    s.length ≤ f → s.length ≤ g → pySplitF sep f s = pySplitF sep g s := by
  intro f
  induction f with
  | zero =>
    intro g s hf _
    have : s = [] := List.eq_nil_of_length_eq_zero (Nat.le_zero.mp hf)
    subst this
    cases g <;> rfl
  | succ f ih =>
    intro g s hf hg
    cases s with
    | nil => cases g <;> rfl
    | cons x xs =>
      cases g with
      | zero => simp at hg
      | succ g =>
        simp only [pySplitF]
        by_cases h : sep ≠ [] ∧ sep.isPrefixOf (x :: xs)
        · simp only [if_pos h]
          have hsep : 1 ≤ sep.length :=
            List.length_pos.mpr h.1
          have hd : ((x :: xs).drop sep.length).length ≤ f := by
            simp only [List.length_drop, List.length_cons]
            simp only [List.length_cons] at hf
            omega
          have hd' : ((x :: xs).drop sep.length).length ≤ g := by
            simp only [List.length_drop, List.length_cons]
            simp only [List.length_cons] at hg
            omega
          rw [ih g _ hd hd']
        · simp only [if_neg h]
          have hx : xs.length ≤ f := by
            simp only [List.length_cons] at hf; omega
          have hx' : xs.length ≤ g := by
            simp only [List.length_cons] at hg; omega
          rw [ih g xs hx hx']

/-- Splitting a string that does not contain the single-character
separator yields that string alone. -/
theorem pySplit_eq_self_of_not_mem {c : Char} {p : List Char} (hc : c ∉ p) :
    pySplit [c] p = [p] := by
  suffices h : ∀ (f : Nat) (p : List Char), p.length ≤ f → c ∉ p →
      pySplitF [c] f p = [p] from h p.length p le_rfl hc
  intro f
  induction f with
  | zero =>
    intro p hf _
    have : p = [] := List.eq_nil_of_length_eq_zero (Nat.le_zero.mp hf)
    subst this; rfl
  | succ f ih =>
    intro p hf hp
    cases p with
    | nil => rfl
    | cons x xs =>
      have hxc : ¬ (x = c) := fun h => hp (h ▸ List.mem_cons_self x xs)
      simp only [pySplitF]
      have hpre : ¬ (([c] : List Char) ≠ [] ∧ ([c] : List Char).isPrefixOf (x :: xs)) := by
        simp [List.isPrefixOf]
        intro h; exact absurd h.symm hxc
      simp only [if_neg hpre]
      have hxs : xs.length ≤ f := by
        simp only [List.length_cons] at hf; omega
      rw [ih xs hxs (fun h => hp (List.mem_cons_of_mem _ h))]

/-- Splitting `p ++ c :: rest` on `c`, when `p` is free of `c`, peels off `p`. -/
theorem pySplit_append {c : Char} {p : List Char} (rest : List Char) (hc : c ∉ p) :
    pySplit [c] (p ++ c :: rest) = p :: pySplit [c] rest := by
  suffices h : ∀ (f : Nat) (p : List Char), (p ++ c :: rest).length ≤ f → c ∉ p →
      pySplitF [c] f (p ++ c :: rest) = p :: pySplit [c] rest from
    h _ p le_rfl hc
  intro f
  induction f with
  | zero => intro p hf _; simp [List.length_append] at hf
  | succ f ih =>
    intro p hf hp
    cases p with
    | nil =>
      simp only [List.nil_append]
      simp only [pySplitF]
      have hpre : (([c] : List Char) ≠ [] ∧ ([c] : List Char).isPrefixOf (c :: rest)) := by
        simp [List.isPrefixOf]
      simp only [if_pos hpre]
      have : ((c :: rest).drop ([c] : List Char).length) = rest := by simp
      rw [this]
      have hr : rest.length ≤ f := by
        simp only [List.nil_append, List.length_cons] at hf; omega
      rw [pySplitF_fuel_irrel [c] f rest.length rest hr le_rfl]
      rfl
    | cons x xs =>
      have hxc : ¬ (x = c) := fun h => hp (h ▸ List.mem_cons_self x xs)
      simp only [List.cons_append]
      simp only [pySplitF]
      have hpre : ¬ (([c] : List Char) ≠ [] ∧
          ([c] : List Char).isPrefixOf (x :: (xs ++ c :: rest))) := by
        simp [List.isPrefixOf]
        intro h; exact absurd h.symm hxc
      simp only [if_neg hpre]
      have hlen : (xs ++ c :: rest).length ≤ f := by
        simp only [List.cons_append, List.length_cons] at hf; omega
      rw [ih xs hlen (fun h => hp (List.mem_cons_of_mem _ h))]

/-- Round trip: joining `c`-free parts with `c` and splitting on `c`
recovers the parts. -/
theorem pySplit_joinWith {c : Char} :
    ∀ (l : List (List Char)), l ≠ [] → (∀ p ∈ l, c ∉ p) →
      pySplit [c] (joinWith [c] l) = l := by
  intro l
  induction l with
  | nil => intro h; exact absurd rfl h
  | cons x t ih =>
    intro _ hfree
    cases t with
    | nil =>
      simp only [joinWith]
      exact pySplit_eq_self_of_not_mem (hfree x (List.mem_cons_self x []))
    | cons y t' =>
      have hx : c ∉ x := hfree x (List.mem_cons_self _ _)
      have : joinWith [c] (x :: y :: t') = x ++ c :: joinWith [c] (y :: t') := by
        simp [joinWith]
      rw [this, pySplit_append _ hx,
        ih (by simp) (fun p hp => hfree p (List.mem_cons_of_mem _ hp))]

/-- Every piece produced by a single-character split is free of the
separator. -/
theorem not_mem_of_mem_pySplit {c : Char} {s p : List Char}
    (hp : p ∈ pySplit [c] s) : c ∉ p := by
  suffices h : ∀ (f : Nat) (s p : List Char), s.length ≤ f →
      p ∈ pySplitF [c] f s → c ∉ p from h s.length s p le_rfl hp
  intro f
  induction f with
  | zero =>
    intro s p hf hp'
    have : s = [] := List.eq_nil_of_length_eq_zero (Nat.le_zero.mp hf)
    subst this
    simp [pySplitF] at hp'
    simp [hp']
  | succ f ih =>
    intro s p hf hp'
    cases s with
    | nil =>
      simp [pySplitF] at hp'
      simp [hp']
    | cons x xs =>
      simp only [pySplitF] at hp'
      by_cases hpre : (([c] : List Char) ≠ [] ∧ ([c] : List Char).isPrefixOf (x :: xs))
      · rw [if_pos hpre] at hp'
        rcases List.mem_cons.mp hp' with h | h
        · simp [h]
        · have hd : ((x :: xs).drop ([c] : List Char).length).length ≤ f := by
            simp only [List.length_drop, List.length_cons, List.length_nil] at hf ⊢
            omega
          exact ih _ p hd h
      · rw [if_neg hpre] at hp'
        have hxc : ¬ (x = c) := by
          intro h
          apply hpre
          constructor
          · simp
          · simp [List.isPrefixOf, h]
        have hxs : xs.length ≤ f := by
          simp only [List.length_cons] at hf; omega
        cases hm : pySplitF [c] f xs with
        | nil => exact absurd hm (pySplitF_ne_nil [c] f xs)
        | cons h t =>
          rw [hm] at hp'
          rcases List.mem_cons.mp hp' with h' | h'
          · subst h'
            intro hmem
            rcases List.mem_cons.mp hmem with h'' | h''
            · exact hxc h''.symm
            · exact ih xs h hxs (hm ▸ List.mem_cons_self h t) h''
          · exact ih xs p hxs (hm ▸ List.mem_cons_of_mem h h')

/-- Characters of a join come from the separator or from one of the parts. -/
theorem mem_joinWith {c : Char} {sep : List Char} :
    ∀ {l : List (List Char)}, c ∈ joinWith sep l → c ∈ sep ∨ ∃ p ∈ l, c ∈ p := by
  intro l
  induction l with
  | nil => intro h; simp [joinWith] at h
  | cons x t ih =>
    intro h
    cases t with
    | nil =>
      simp only [joinWith] at h
      exact Or.inr ⟨x, List.mem_cons_self _ _, h⟩
    | cons y t' =>
      simp only [joinWith, List.append_assoc, List.mem_append] at h
      rcases h with h | h | h
      · exact Or.inr ⟨x, List.mem_cons_self _ _, h⟩
      · exact Or.inl h
      · rcases ih h with h' | ⟨p, hp, hc⟩
        · exact Or.inl h'
        · exact Or.inr ⟨p, List.mem_cons_of_mem _ hp, hc⟩

/-! ## Batch reassembly (`_translate_batch`, lines 338-386) -/

/-- The constant `PARA_DELIMITER = "|||PARA|||"` (line 44). -/
def PARA_DELIMITER : List Char := "|||PARA|||".toList

/-- Line 370: `parts = [p.strip().replace("\n", " ")
for p in translation.split(PARA_DELIMITER) if p.strip()]`. -/
def batchParts (translation : List Char) : List (List Char) :=
  ((pySplit PARA_DELIMITER translation).filter
    (fun p => !(pyStrip p).isEmpty)).map (fun p => flattenNewlines (pyStrip p))

/-- Lines 372-381: reassemble the delimiter-split model output against the
original paragraph list (merge the excess into the last paragraph, or pad
with the original untranslated paragraphs). -/
def assembleParas (paragraphs : List (List Char)) (translation : List Char) :
    List Char :=
  let para_count := paragraphs.length
  let parts := batchParts translation
  if parts.length = para_count then
    joinWith ['\n'] parts
  else if para_count < parts.length then
    joinWith ['\n']
      (parts.take (para_count - 1) ++ [joinWith [' '] (parts.drop (para_count - 1))])
  else
    joinWith ['\n'] ((parts ++ paragraphs.drop parts.length).take para_count)

/-- The reassembly step of `_translate_batch`: the paragraph list is obtained
by splitting the submitted unit on `"\n"` (line 339). -/
def reassembleBatch (text translation : List Char) : List Char :=
  assembleParas (pySplit ['\n'] text) translation

theorem not_mem_flattenNewlines (s : List Char) : '\n' ∉ flattenNewlines s := by
  intro h
  simp only [flattenNewlines, List.mem_map] at h
  obtain ⟨c, _, hc⟩ := h
  by_cases h' : c = '\n' <;> simp [h'] at hc

theorem newline_not_mem_batchParts {p t : List Char} (hp : p ∈ batchParts t) :
    '\n' ∉ p := by
  simp only [batchParts, List.mem_map] at hp
  obtain ⟨q, _, rfl⟩ := hp
  exact not_mem_flattenNewlines _

/-- Splitting the reassembled batch output on `"\n"` recovers exactly the
merged/padded segment list, whose length is the paragraph count. -/
theorem assembleParas_spec (paragraphs : List (List Char)) (translation : List Char)
    (hne : paragraphs ≠ []) (hfree : ∀ p ∈ paragraphs, '\n' ∉ p) :
    pySplit ['\n'] (assembleParas paragraphs translation) =
      (if (batchParts translation).length = paragraphs.length then
        batchParts translation
      else if paragraphs.length < (batchParts translation).length then
        (batchParts translation).take (paragraphs.length - 1) ++
          [joinWith [' '] ((batchParts translation).drop (paragraphs.length - 1))]
      else
        (batchParts translation ++ paragraphs.drop (batchParts translation).length).take
          paragraphs.length) ∧
    (pySplit ['\n'] (assembleParas paragraphs translation)).length =
      paragraphs.length := by
  have hn : 1 ≤ paragraphs.length := List.length_pos.mpr hne
  have hparts : ∀ p ∈ batchParts translation, '\n' ∉ p :=
    fun p hp => newline_not_mem_batchParts hp
  by_cases h1 : (batchParts translation).length = paragraphs.length
  · have hsplit : pySplit ['\n'] (assembleParas paragraphs translation) =
        batchParts translation := by
      simp only [assembleParas, if_pos h1]
      exact pySplit_joinWith _ (by
        intro hcon
        rw [hcon] at h1
        simp at h1
        omega) hparts
    refine ⟨by rw [hsplit, if_pos h1], ?_⟩
    rw [hsplit, h1]
  · by_cases h2 : paragraphs.length < (batchParts translation).length
    · have hsplit : pySplit ['\n'] (assembleParas paragraphs translation) =
          (batchParts translation).take (paragraphs.length - 1) ++
            [joinWith [' '] ((batchParts translation).drop (paragraphs.length - 1))] := by
        simp only [assembleParas, if_neg h1, if_pos h2]
        refine pySplit_joinWith _ (by simp) ?_
        intro p hp
        rcases List.mem_append.mp hp with h | h
        · exact hparts p (List.take_subset _ _ h)
        · rcases List.mem_singleton.mp h with rfl
          intro hmem
          rcases mem_joinWith hmem with h' | ⟨q, hq, hcq⟩
          · simp at h'
          · exact hparts q (List.drop_subset _ _ hq) hcq
      refine ⟨by rw [hsplit, if_neg h1, if_pos h2], ?_⟩
      rw [hsplit]
      rw [List.length_append, List.length_take]
      simp only [List.length_singleton]
      omega
    · have hlt : (batchParts translation).length < paragraphs.length := by
        omega
      have hlen : ((batchParts translation ++
          paragraphs.drop (batchParts translation).length).take paragraphs.length).length =
          paragraphs.length := by
        rw [List.length_take, List.length_append, List.length_drop]
        omega
      have hsplit : pySplit ['\n'] (assembleParas paragraphs translation) =
          (batchParts translation ++
            paragraphs.drop (batchParts translation).length).take paragraphs.length := by
        simp only [assembleParas, if_neg h1, if_neg h2]
        refine pySplit_joinWith _ ?_ ?_
        · intro hcon
          rw [hcon] at hlen
          simp at hlen
          omega
        · intro p hp
          have hp' := List.take_subset _ _ hp
          rcases List.mem_append.mp hp' with h | h
          · exact hparts p h
          · exact hfree p (List.drop_subset _ _ h)
      refine ⟨by rw [hsplit, if_neg h1, if_neg h2], ?_⟩
      rw [hsplit, hlen]

/-! ## Glossary store (Python `dict`), profile seed merge, refresh filter -/

/-- A Python `dict` of strings: insertion-ordered association list.
`self.glossary` in the translator. -/
abbrev Dict := List (List Char × List Char)

/-- Assigning one key in a Python dict: overwrite in place when present,
append when absent. -/
def dictInsert (m : Dict) (k v : List Char) : Dict :=
  if m.any (fun p => p.1 == k) then
    m.map (fun p => if p.1 = k then (k, v) else p)
  else m ++ [(k, v)]

/-- Python `d.update(new)`: assign every pair of `new` in order. -/
def dictUpdate (m : Dict) (new : Dict) : Dict :=
  new.foldl (fun acc kv => dictInsert acc kv.1 kv.2) m

/-- Lines 270-272 of `load_profile`:
`seed = profile.get("glossary_seed", {}); seed.pop("_comment", None);
self.glossary.update(seed)`.  Only the literal key `"_comment"` is removed
before the merge. -/
def loadProfileSeed (g : Dict) (seed : Dict) : Dict :=
  dictUpdate g (seed.filter (fun kv => !(kv.1 == "_comment".toList)))

/-- JSON values, as produced by `json.loads` (Python standard library). -/
inductive Json where
  | jstr : List Char → Json
  | jnum : Int → Json
  | jbool : Bool → Json
  | jnull : Json
  | jarr : List Json → Json
  | jobj : List (List Char × Json) → Json

/-- Python `r.split("\n", 1)[1]`: the part after the first newline; `none` models
the `IndexError` Python raises when there is no newline. -/
def splitOnceAfter (c : Char) : List Char → Option (List Char)
  | [] => none
  | x :: xs => if x = c then some xs else splitOnceAfter c xs

/-- Start index of the last occurrence of `sep` in `s`, if any. -/
def lastOccStart (sep s : List Char) : Option Nat :=
  ((List.range (s.length + 1)).filter (fun i => sep.isPrefixOf (s.drop i))).getLast?

/-- Python `s.rsplit(sep, 1)[0]`: everything before the last occurrence of
`sep`, or all of `s` when `sep` does not occur. -/
def rsplitBefore (sep s : List Char) : List Char :=
  match lastOccStart sep s with
  | some i => s.take i
  | none => s

/-- The code-fence marker. -/
def TICKS : List Char := "```".toList

/-- Lines 484-486: `resp = resp.strip()`; if it starts with a code fence,
`resp = resp.split("\n", 1)[1].rsplit("```", 1)[0]`.  `none` models the
`IndexError` raised when the fenced response has no newline (caught by the
generic `except`). -/
def stripFenceResp (resp : List Char) : Option (List Char) :=
  let r := pyStrip resp
  if TICKS.isPrefixOf r then
    match splitOnceAfter '\n' r with
    | none => none
    | some rest => some (rsplitBefore TICKS rest)
  else some r

/-- The translator's mutable counters and rolling state
(`__init__`, lines 198-219). -/
structure TState where
  glossary : Dict
  context_summary : List Char
  chunk_counter : Nat
  pass1_only_count : Nat
  full_3pass_count : Nat
  reviews_ok : Nat
  reviews_fixed : Nat
  glossary_extract_failures : Nat
deriving DecidableEq

/-- The glossary-refresh response handling, lines 484-507: fence strip,
`json.loads` (abstract parameter), the string-to-string/length/underscore
filter, the guarded merge, and the two `except` arms (each of which only
increments `glossary_extract_failures`). -/
def glossaryApply (jsonLoads : List Char → Except Unit Json) (st : TState)
    (resp : List Char) : TState :=
  match stripFenceResp resp with
  | none => { st with glossary_extract_failures := st.glossary_extract_failures + 1 }
  | some r =>
    match jsonLoads r with
    | .error _ =>
      { st with glossary_extract_failures := st.glossary_extract_failures + 1 }
    | .ok (Json.jobj fields) =>
      let valid := fields.filterMap (fun kv =>
        match kv.2 with
        | Json.jstr v =>
          if kv.1.length < 100 && v.length < 200 && !(['_'].isPrefixOf kv.1)
          then some (kv.1, v) else none
        | _ => none)
      if valid.isEmpty then st
      else { st with glossary := dictUpdate st.glossary valid }
    | .ok _ => st

/-- Keys present after a single dict assignment. -/
theorem mem_keys_dictInsert {m : Dict} {k v k' : List Char}
    (h : k' ∈ (dictInsert m k v).map Prod.fst) :
    k' ∈ m.map Prod.fst ∨ k' = k := by
  simp only [dictInsert] at h
  by_cases hc : m.any (fun p => p.1 == k)
  · rw [if_pos hc] at h
    simp only [List.map_map, List.mem_map] at h
    obtain ⟨p, hp, hpk⟩ := h
    by_cases hpk' : p.1 = k
    · simp only [Function.comp, hpk', if_pos rfl] at hpk
      exact Or.inr hpk.symm
    · simp only [Function.comp, if_neg hpk'] at hpk
      exact Or.inl (hpk ▸ List.mem_map.mpr ⟨p, hp, rfl⟩)
  · rw [if_neg hc] at h
    simp only [List.map_append, List.mem_append, List.map_cons, List.map_nil,
      List.mem_singleton] at h
    rcases h with h | h
    · exact Or.inl h
    · exact Or.inr h

/-- Keys present after `d.update(new)` come from `d` or from `new`. -/
theorem mem_keys_dictUpdate {new : Dict} :
    ∀ {m : Dict} {k' : List Char}, k' ∈ (dictUpdate m new).map Prod.fst →
      k' ∈ m.map Prod.fst ∨ k' ∈ new.map Prod.fst := by
  induction new with
  | nil => intro m k' h; exact Or.inl h
  | cons kv t ih =>
    intro m k' h
    have h' := ih (m := dictInsert m kv.1 kv.2) h
    rcases h' with h' | h'
    · rcases mem_keys_dictInsert h' with h'' | h''
      · exact Or.inl h''
      · exact Or.inr (by simp [h''])
    · exact Or.inr (List.mem_cons_of_mem _ h')

/-! ## Formatted glossary snapshot (`_format_glossary`, lines 509-515) -/

/-- Python tuple order on `(source, target)` pairs: the order used by
`sorted(self.glossary.items())`. -/
def pairLe (a b : List Char × List Char) : Prop :=
  a.1 < b.1 ∨ (a.1 = b.1 ∧ a.2 ≤ b.2)

instance : DecidableRel pairLe := fun a b => by
  unfold pairLe; infer_instance

instance : IsTotal (List Char × List Char) pairLe := by
  constructor
  intro a b
  rcases lt_trichotomy a.1 b.1 with h | h | h
  · exact Or.inl (Or.inl h)
  · rcases le_total a.2 b.2 with h2 | h2
    · exact Or.inl (Or.inr ⟨h, h2⟩)
    · exact Or.inr (Or.inr ⟨h.symm, h2⟩)
  · exact Or.inr (Or.inl h)

instance : IsTrans (List Char × List Char) pairLe := by
  constructor
  intro a b c hab hbc
  rcases hab with hab | ⟨hab, hab2⟩
  · rcases hbc with hbc | ⟨hbc, _⟩
    · exact Or.inl (lt_trans hab hbc)
    · exact Or.inl (hbc ▸ hab)
  · rcases hbc with hbc | ⟨hbc, hbc2⟩
    · exact Or.inl (hab ▸ hbc)
    · exact Or.inr ⟨hab.trans hbc, le_trans hab2 hbc2⟩

/-- The rendered line `f"  {src} → {tgt}"` (line 513). -/
def renderGlossaryLine (kv : List Char × List Char) : List Char :=
  "  ".toList ++ kv.1 ++ " → ".toList ++ kv.2

/-- The entry pairs behind the first 60 formatted lines: alphabetically
sorted entries, reserved-marker keys removed, first 60 kept. -/
def glossaryPairs (g : Dict) : List (List Char × List Char) :=
  ((List.insertionSort pairLe g).filter (fun kv => !(['_'].isPrefixOf kv.1))).take 60

/-- Lines 509-515: empty string for an empty store, otherwise the rendered
lines of the sorted, filtered entries, truncated to 60, joined with `"\n"`. -/
def format_glossary (g : Dict) : List Char :=
  if g.isEmpty then []
  else
    joinWith ['\n']
      ((((List.insertionSort pairLe g).filter
        (fun kv => !(['_'].isPrefixOf kv.1))).map renderGlossaryLine).take 60)

/-! ## Resilient call layer (`_api_call`, lines 519-569) -/

/-- An exception raised by the completion request: the Python type name
(`type(e).__name__`) and the message (`str(e)`). -/
structure ApiError where
  name : List Char
  msg : List Char
deriving DecidableEq

/-- Line 564: the backoff base is 5 when the failure looks rate-limit
related (`"RateLimit" in err or "rate" in str(e).lower()`), else 3. -/
def backoffBase (e : ApiError) : Nat :=
  if containsSub "RateLimit".toList e.name ||
      containsSub "rate".toList (e.msg.map Char.toLower) then 5 else 3

/-- Line 564: `wait = min(60, 2 ** attempt * base)`. -/
def backoffWait (attempt : Nat) (e : ApiError) : Nat :=
  min 60 (2 ^ attempt * backoffBase e)

instance : DecidableEq (Except ApiError (List Char)) := fun a b =>
  match a, b with
  | .ok x, .ok y =>
    if h : x = y then isTrue (by rw [h]) else isFalse (by intro hc; cases hc; exact h rfl)
  | .error x, .error y =>
    if h : x = y then isTrue (by rw [h]) else isFalse (by intro hc; cases hc; exact h rfl)
  | .ok _, .error _ => isFalse (by intro hc; cases hc)
  | .error _, .ok _ => isFalse (by intro hc; cases hc)

/-- Outcome of `_api_call`: the returned text or the re-raised error, the
backoff sleeps performed, and how many successful requests were recorded in
the statistics (`total_requests` increments). -/
structure ApiOutcome where
  result : Except ApiError (List Char)
  waits : List Nat
  requests : Nat
deriving DecidableEq

/-- The retry loop `for attempt in range(retries)` of `_api_call`
(lines 539-569).  `attempts i` is the outcome of the `i`-th underlying
completion request; `remaining` counts the loop iterations left.  The
fuel-exhausted arm models the `raise RuntimeError` after the loop. -/
def apiCallGo (attempts : Nat → Except ApiError (List Char)) (retries : Nat) :
    Nat → Nat → ApiOutcome
  | 0, _ => ⟨.error ⟨"RuntimeError".toList, "Failed after retries".toList⟩, [], 0⟩
  | remaining + 1, attempt =>
    match attempts attempt with
    | .ok text => ⟨.ok text, [], 1⟩
    | .error e =>
      if attempt < retries - 1 then
        let r := apiCallGo attempts retries remaining (attempt + 1)
        ⟨r.result, backoffWait attempt e :: r.waits, r.requests⟩
      else ⟨.error e, [], 0⟩

/-- The default retry budget of `_api_call` (`retries=5`, line 520). -/
def API_RETRIES : Nat := 5

/-- The call `_api_call attempts retries`. -/
def api_call (attempts : Nat → Except ApiError (List Char)) (retries : Nat) :
    ApiOutcome :=
  apiCallGo attempts retries retries 0

/-! ## Pass pipeline and dispatcher (`translate` and the three modes) -/

/-- Which prompt produced a completion call. -/
inductive PassKind where
  | ptranslate | preview | prefine | pcontext | pglossary
deriving DecidableEq

/-- The environment: `oracle i` is the outcome of the `i`-th completion
call made during the run (the text `_api_call` returns, or the error it
re-raises after exhausting retries). -/
structure Env where
  oracle : Nat → Except ApiError (List Char)

/-- An environment in which every completion call succeeds. -/
def okEnv (resp : Nat → List Char) : Env := ⟨fun i => .ok (resp i)⟩

/-- Configuration fixed at construction / profile load. -/
structure TConfig where
  min_review_chars : Nat
  skip_review : Bool
  context_flag : Bool
  context_update_interval : Nat
  glossary_update_interval : Nat
  language : List Char
  source_language : List Char

/-- The constructor defaults (lines 172-196 and the module constants). -/
def defaultConfig : TConfig :=
  { min_review_chars := 300, skip_review := false, context_flag := false,
    context_update_interval := 15, glossary_update_interval := 20,
    language := "German".toList, source_language := "English".toList }

/-- The zeroed statistics and empty rolling state of a fresh translator. -/
def initialState : TState :=
  { glossary := [], context_summary := [], chunk_counter := 0,
    pass1_only_count := 0, full_3pass_count := 0, reviews_ok := 0,
    reviews_fixed := 0, glossary_extract_failures := 0 }

/-- Run data: translator state, number of completion calls made so far, and
the kind plus primary text argument of each call, in order. -/
structure RunState where
  st : TState
  ncalls : Nat
  trace : List (PassKind × List Char)
deriving DecidableEq

/-- A fresh run over a given translator state. -/
def initRun (st : TState) : RunState := ⟨st, 0, []⟩

/-- One completion call: consult the oracle, record the call. -/
def callApi (env : Env) (k : PassKind) (payload : List Char) (rs : RunState) :
    Except ApiError (List Char) × RunState :=
  (env.oracle rs.ncalls,
    { rs with ncalls := rs.ncalls + 1, trace := rs.trace ++ [(k, payload)] })

/-- Number of calls of a given kind in a trace. -/
def countKind (k : PassKind) (tr : List (PassKind × List Char)) : Nat :=
  (tr.filter (fun e => e.1 == k)).length

/-- Function `_is_quality_ok` (lines 388-390): membership of any accepted sentinel
spelling in the review text. -/
def is_quality_ok (review : List Char) : Bool :=
  containsSub "QUALITY_OK".toList review ||
    containsSub "QUALITAET_OK".toList review ||
    containsSub "QUALITÄT_OK".toList review

/-- Lines 462-466: the summarisation request body (excerpts truncated to
1500 characters with a previous summary, 2000 without). -/
def contextMsg (prev orig trans : List Char) : List Char :=
  if !prev.isEmpty then
    "Previous summary:\n".toList ++ prev ++ "\n\nNew original text:\n".toList ++
      orig.take 1500 ++ "\n\nNew translation:\n".toList ++ trans.take 1500
  else
    "Original:\n".toList ++ orig.take 2000 ++ "\n\nTranslation:\n".toList ++
      trans.take 2000

/-- Lines 476-479: the glossary-extraction request body. -/
def glossaryMsg (cfg : TConfig) (orig trans : List Char) : List Char :=
  "ORIGINAL (".toList ++ cfg.source_language ++ "):\n".toList ++ orig.take 2000 ++
    "\n\nTRANSLATION (".toList ++ cfg.language ++ "):\n".toList ++ trans.take 2000

/-- Function `_maybe_update_context_glossary` (lines 458-507): the periodic context
refresh (failure caught, summary untouched) followed by the periodic
glossary refresh (failure of the call or of the parse caught, counted in
`glossary_extract_failures`). -/
def maybe_update_context_glossary (cfg : TConfig) (env : Env)
    (jsonLoads : List Char → Except Unit Json) (rs : RunState)
    (original translation : List Char) : RunState :=
  let rs1 :=
    if cfg.context_flag ∧ rs.st.chunk_counter % cfg.context_update_interval = 0 then
      let c := callApi env .pcontext
        (contextMsg rs.st.context_summary original translation) rs
      match c.1 with
      | .ok summary => { c.2 with st := { c.2.st with context_summary := summary } }
      | .error _ => c.2
    else rs
  if rs1.st.chunk_counter % cfg.glossary_update_interval = 0 then
    let c := callApi env .pglossary (glossaryMsg cfg original translation) rs1
    match c.1 with
    | .ok resp => { c.2 with st := glossaryApply jsonLoads c.2.st resp }
    | .error _ =>
      { c.2 with st := { c.2.st with glossary_extract_failures :=
          c.2.st.glossary_extract_failures + 1 } }
  else rs1

/-- Function `_translate_pass1_only` (lines 311-316). -/
def translate_pass1_only (cfg : TConfig) (env : Env)
    (jsonLoads : List Char → Except Unit Json) (rs : RunState) (text : List Char) :
    Except ApiError (List Char) × RunState :=
  let rs0 := { rs with st :=
    { rs.st with pass1_only_count := rs.st.pass1_only_count + 1 } }
  let c := callApi env .ptranslate text rs0
  match c.1 with
  | .error e => (.error e, c.2)
  | .ok translation =>
    (.ok translation, maybe_update_context_glossary cfg env jsonLoads c.2 text translation)

/-- Function `_translate_3pass` (lines 318-336). -/
def translate_3pass (cfg : TConfig) (env : Env)
    (jsonLoads : List Char → Except Unit Json) (rs : RunState) (text : List Char) :
    Except ApiError (List Char) × RunState :=
  let rs0 := { rs with st :=
    { rs.st with full_3pass_count := rs.st.full_3pass_count + 1 } }
  let c1 := callApi env .ptranslate text rs0
  match c1.1 with
  | .error e => (.error e, c1.2)
  | .ok translation =>
    let c2 := callApi env .preview text c1.2
    match c2.1 with
    | .error e => (.error e, c2.2)
    | .ok review =>
      if is_quality_ok review then
        let rs2 := { c2.2 with st :=
          { c2.2.st with reviews_ok := c2.2.st.reviews_ok + 1 } }
        (.ok translation,
          maybe_update_context_glossary cfg env jsonLoads rs2 text translation)
      else
        let rs2 := { c2.2 with st :=
          { c2.2.st with reviews_fixed := c2.2.st.reviews_fixed + 1 } }
        let c3 := callApi env .prefine text rs2
        match c3.1 with
        | .error e => (.error e, c3.2)
        | .ok refined =>
          (.ok refined,
            maybe_update_context_glossary cfg env jsonLoads c3.2 text refined)

/-- The delimited batch input `f"\n{PARA_DELIMITER}\n".join(paragraphs)` (line 346). -/
def delimitedOf (text : List Char) : List Char :=
  joinWith ('\n' :: (PARA_DELIMITER ++ ['\n'])) (pySplit ['\n'] text)

/-- Tail of `_translate_batch` (lines 369-386): reassemble, refresh state,
return. -/
def finishBatch (cfg : TConfig) (env : Env)
    (jsonLoads : List Char → Except Unit Json) (rs : RunState) (text : List Char)
    (paragraphs : List (List Char)) (translation : List Char) :
    Except ApiError (List Char) × RunState :=
  let result := assembleParas paragraphs translation
  (.ok result, maybe_update_context_glossary cfg env jsonLoads rs text result)

/-- Function `_translate_batch` (lines 338-386). -/
def translate_batch (cfg : TConfig) (env : Env)
    (jsonLoads : List Char → Except Unit Json) (rs : RunState) (text : List Char) :
    Except ApiError (List Char) × RunState :=
  let paragraphs := pySplit ['\n'] text
  let total_chars := text.length
  let rs0 := { rs with st :=
    { rs.st with full_3pass_count := rs.st.full_3pass_count + 1 } }
  let delimited := delimitedOf text
  let c1 := callApi env .ptranslate delimited rs0
  match c1.1 with
  | .error e => (.error e, c1.2)
  | .ok translation =>
    if (!cfg.skip_review) ∧ cfg.min_review_chars ≤ total_chars then
      let c2 := callApi env .preview delimited c1.2
      match c2.1 with
      | .error e => (.error e, c2.2)
      | .ok review =>
        if is_quality_ok review then
          let rs2 := { c2.2 with st :=
            { c2.2.st with reviews_ok := c2.2.st.reviews_ok + 1 } }
          finishBatch cfg env jsonLoads rs2 text paragraphs translation
        else
          let rs2 := { c2.2 with st :=
            { c2.2.st with reviews_fixed := c2.2.st.reviews_fixed + 1 } }
          let c3 := callApi env .prefine delimited rs2
          match c3.1 with
          | .error e => (.error e, c3.2)
          | .ok refined =>
            finishBatch cfg env jsonLoads c3.2 text paragraphs refined
    else finishBatch cfg env jsonLoads c1.2 text paragraphs translation

/-- The top-level `translate` (lines 298-307): bump the chunk counter,
classify by newline-in-stripped-text, dispatch on mode. -/
def translate (cfg : TConfig) (env : Env)
    (jsonLoads : List Char → Except Unit Json) (rs : RunState) (text : List Char) :
    Except ApiError (List Char) × RunState :=
  let rs := { rs with st := { rs.st with chunk_counter := rs.st.chunk_counter + 1 } }
  if '\n' ∈ pyStrip text then translate_batch cfg env jsonLoads rs text
  else if text.length < cfg.min_review_chars ∨ cfg.skip_review then
    translate_pass1_only cfg env jsonLoads rs text
  else translate_3pass cfg env jsonLoads rs text

/-! ## Structural lemmas about the model -/

theorem countKind_append (k : PassKind) (t1 t2 : List (PassKind × List Char)) :
    countKind k (t1 ++ t2) = countKind k t1 + countKind k t2 := by
  simp [countKind, List.filter_append]

theorem countKind_eq_zero {k : PassKind} {tr : List (PassKind × List Char)}
    (h : ∀ e ∈ tr, e.1 ≠ k) : countKind k tr = 0 := by
  simp only [countKind, List.length_eq_zero, List.filter_eq_nil_iff]
  intro e he
  simpa using h e he

/-- The glossary-refresh response handler touches only the glossary and the
failure counter. -/
theorem glossaryApply_preserves (jp : List Char → Except Unit Json) (st : TState)
    (r : List Char) :
    (glossaryApply jp st r).context_summary = st.context_summary ∧
    (glossaryApply jp st r).chunk_counter = st.chunk_counter ∧
    (glossaryApply jp st r).pass1_only_count = st.pass1_only_count ∧
    (glossaryApply jp st r).full_3pass_count = st.full_3pass_count ∧
    (glossaryApply jp st r).reviews_ok = st.reviews_ok ∧
    (glossaryApply jp st r).reviews_fixed = st.reviews_fixed := by
  rcases h1 : stripFenceResp r with _ | r'
  · simp [glossaryApply, h1]
  · rcases h2 : jp r' with e | j
    · simp [glossaryApply, h1, h2]
    · cases j with
      | jobj fields =>
        simp only [glossaryApply, h1, h2]
        split
        · exact ⟨rfl, rfl, rfl, rfl, rfl, rfl⟩
        · exact ⟨rfl, rfl, rfl, rfl, rfl, rfl⟩
      | jstr s => simp [glossaryApply, h1, h2]
      | jnum m => simp [glossaryApply, h1, h2]
      | jbool b => simp [glossaryApply, h1, h2]
      | jnull => simp [glossaryApply, h1, h2]
      | jarr a => simp [glossaryApply, h1, h2]

/-- Function `_maybe_update_context_glossary` appends only context/glossary calls to
the trace and leaves the mode and review counters and the chunk counter
unchanged. -/
theorem maybe_update_shape (cfg : TConfig) (env : Env)
    (jp : List Char → Except Unit Json) (rs : RunState) (orig trans : List Char) :
    ∃ (extra : List (PassKind × List Char)) (st' : TState),
      maybe_update_context_glossary cfg env jp rs orig trans =
        ⟨st', rs.ncalls + extra.length, rs.trace ++ extra⟩ ∧
      (∀ e ∈ extra, e.1 = PassKind.pcontext ∨ e.1 = PassKind.pglossary) ∧
      st'.pass1_only_count = rs.st.pass1_only_count ∧
      st'.full_3pass_count = rs.st.full_3pass_count ∧
      st'.reviews_ok = rs.st.reviews_ok ∧
      st'.reviews_fixed = rs.st.reviews_fixed ∧
      st'.chunk_counter = rs.st.chunk_counter := by
  obtain ⟨st, n, tr⟩ := rs
  simp only [maybe_update_context_glossary, callApi]
  by_cases h1 : cfg.context_flag = true ∧ st.chunk_counter % cfg.context_update_interval = 0
  · rw [if_pos h1]
    rcases ho : env.oracle n with e | summary
    all_goals simp only
    · -- context call failed: state unchanged
      by_cases h2 : st.chunk_counter % cfg.glossary_update_interval = 0
      · rw [if_pos h2]
        rcases hg : env.oracle (n + 1) with e' | resp
        all_goals simp only
        · exact ⟨[(.pcontext, contextMsg st.context_summary orig trans),
            (.pglossary, glossaryMsg cfg orig trans)],
            ({ st with glossary_extract_failures := st.glossary_extract_failures + 1 } : TState),
            by simp [List.append_assoc], by simp, rfl, rfl, rfl, rfl, rfl⟩
        · obtain ⟨hc, hk, hp1, hp3, hro, hrf⟩ := glossaryApply_preserves jp st resp
          exact ⟨[(.pcontext, contextMsg st.context_summary orig trans),
            (.pglossary, glossaryMsg cfg orig trans)], glossaryApply jp st resp,
            by simp [List.append_assoc], by simp, hp1, hp3, hro, hrf, hk⟩
      · rw [if_neg h2]
        exact ⟨[(.pcontext, contextMsg st.context_summary orig trans)], st,
          by simp, by simp, rfl, rfl, rfl, rfl, rfl⟩
    · -- context call succeeded: summary replaced
      by_cases h2 : st.chunk_counter % cfg.glossary_update_interval = 0
      · rw [if_pos h2]
        rcases hg : env.oracle (n + 1) with e' | resp
        all_goals simp only
        · exact ⟨[(.pcontext, contextMsg st.context_summary orig trans),
            (.pglossary, glossaryMsg cfg orig trans)],
            ({ st with
              context_summary := summary
              glossary_extract_failures := st.glossary_extract_failures + 1 } : TState),
            by simp [List.append_assoc], by simp, rfl, rfl, rfl, rfl, rfl⟩
        · obtain ⟨hc, hk, hp1, hp3, hro, hrf⟩ :=
            glossaryApply_preserves jp { st with context_summary := summary } resp
          exact ⟨[(.pcontext, contextMsg st.context_summary orig trans),
            (.pglossary, glossaryMsg cfg orig trans)],
            glossaryApply jp { st with context_summary := summary } resp,
            by simp [List.append_assoc], by simp, hp1, hp3, hro, hrf, hk⟩
      · rw [if_neg h2]
        exact ⟨[(.pcontext, contextMsg st.context_summary orig trans)],
          ({ st with context_summary := summary } : TState),
          by simp, by simp, rfl, rfl, rfl, rfl, rfl⟩
  · rw [if_neg h1]
    by_cases h2 : st.chunk_counter % cfg.glossary_update_interval = 0
    · rw [if_pos h2]
      rcases hg : env.oracle n with e' | resp
      all_goals simp only
      · exact ⟨[(.pglossary, glossaryMsg cfg orig trans)],
          ({ st with glossary_extract_failures := st.glossary_extract_failures + 1 } : TState),
          by simp, by simp, rfl, rfl, rfl, rfl, rfl⟩
      · obtain ⟨hc, hk, hp1, hp3, hro, hrf⟩ := glossaryApply_preserves jp st resp
        exact ⟨[(.pglossary, glossaryMsg cfg orig trans)], glossaryApply jp st resp,
          by simp, by simp, hp1, hp3, hro, hrf, hk⟩
    · rw [if_neg h2]
      exact ⟨[], st, by simp, by simp, rfl, rfl, rfl, rfl, rfl⟩

/-- A context-refresh call that raises leaves the stored summary exactly as
it was (the glossary branch never touches the summary either). -/
theorem maybe_update_context_error (cfg : TConfig) (env : Env)
    (jp : List Char → Except Unit Json) (rs : RunState) (orig trans : List Char)
    (e : ApiError)
    (h1 : cfg.context_flag = true)
    (h2 : rs.st.chunk_counter % cfg.context_update_interval = 0)
    (he : env.oracle rs.ncalls = .error e) :
    (maybe_update_context_glossary cfg env jp rs orig trans).st.context_summary =
      rs.st.context_summary := by
  obtain ⟨st, n, tr⟩ := rs
  have h2' : st.chunk_counter % cfg.context_update_interval = 0 := h2
  have he' : env.oracle n = .error e := he
  simp only [maybe_update_context_glossary, callApi]
  rw [if_pos (And.intro h1 h2')]
  simp only [he']
  by_cases h3 : st.chunk_counter % cfg.glossary_update_interval = 0
  · rw [if_pos h3]
    rcases hg : env.oracle (n + 1) with e' | resp
    · simp [hg]
    · simp only [hg]
      exact (glossaryApply_preserves jp st resp).1
  · rw [if_neg h3]

/-- Path equality for the Pass-1-only mode. -/
theorem translate_pass1_eq (cfg : TConfig) (env : Env)
    (jp : List Char → Except Unit Json) (st0 : TState) (text t0 : List Char)
    (hsingle : '\n' ∉ pyStrip text)
    (hdisp : text.length < cfg.min_review_chars ∨ cfg.skip_review = true)
    (h0 : env.oracle 0 = .ok t0) :
    translate cfg env jp (initRun st0) text =
      (.ok t0,
        maybe_update_context_glossary cfg env jp
          ⟨{ st0 with
              chunk_counter := st0.chunk_counter + 1
              pass1_only_count := st0.pass1_only_count + 1 }, 1,
            [(.ptranslate, text)]⟩ text t0) := by
  simp only [translate, initRun]
  rw [if_neg hsingle, if_pos hdisp]
  simp only [translate_pass1_only, callApi, h0]
  rfl

/-- Path equality for the full 3-pass mode under an all-successful oracle. -/
theorem translate_3pass_eq (cfg : TConfig) (resp : Nat → List Char)
    (jp : List Char → Except Unit Json) (st0 : TState) (text : List Char)
    (hsingle : '\n' ∉ pyStrip text)
    (hdisp : ¬(text.length < cfg.min_review_chars ∨ cfg.skip_review = true)) :
    translate cfg (okEnv resp) jp (initRun st0) text =
      (if is_quality_ok (resp 1) then
        (.ok (resp 0),
          maybe_update_context_glossary cfg (okEnv resp) jp
            ⟨{ st0 with
                chunk_counter := st0.chunk_counter + 1
                full_3pass_count := st0.full_3pass_count + 1
                reviews_ok := st0.reviews_ok + 1 }, 2,
              [(.ptranslate, text), (.preview, text)]⟩ text (resp 0))
      else
        (.ok (resp 2),
          maybe_update_context_glossary cfg (okEnv resp) jp
            ⟨{ st0 with
                chunk_counter := st0.chunk_counter + 1
                full_3pass_count := st0.full_3pass_count + 1
                reviews_fixed := st0.reviews_fixed + 1 }, 3,
              [(.ptranslate, text), (.preview, text), (.prefine, text)]⟩
            text (resp 2))) := by
  simp only [translate, initRun]
  rw [if_neg hsingle, if_neg hdisp]
  simp only [translate_3pass, callApi, okEnv]
  by_cases hq : is_quality_ok (resp 1) = true
  · simp only [hq, if_true]
    rfl
  · simp only [hq, Bool.false_eq_true, if_false]
    rfl

/-- Path equality for the batch mode under an all-successful oracle. -/
theorem translate_batch_eq (cfg : TConfig) (resp : Nat → List Char)
    (jp : List Char → Except Unit Json) (st0 : TState) (text : List Char)
    (hbatch : '\n' ∈ pyStrip text) :
    translate cfg (okEnv resp) jp (initRun st0) text =
      (if (!cfg.skip_review) = true ∧ cfg.min_review_chars ≤ text.length then
        (if is_quality_ok (resp 1) then
          finishBatch cfg (okEnv resp) jp
            ⟨{ st0 with
                chunk_counter := st0.chunk_counter + 1
                full_3pass_count := st0.full_3pass_count + 1
                reviews_ok := st0.reviews_ok + 1 }, 2,
              [(.ptranslate, delimitedOf text), (.preview, delimitedOf text)]⟩
            text (pySplit ['\n'] text) (resp 0)
        else
          finishBatch cfg (okEnv resp) jp
            ⟨{ st0 with
                chunk_counter := st0.chunk_counter + 1
                full_3pass_count := st0.full_3pass_count + 1
                reviews_fixed := st0.reviews_fixed + 1 }, 3,
              [(.ptranslate, delimitedOf text), (.preview, delimitedOf text),
                (.prefine, delimitedOf text)]⟩
            text (pySplit ['\n'] text) (resp 2))
      else
        finishBatch cfg (okEnv resp) jp
          ⟨{ st0 with
              chunk_counter := st0.chunk_counter + 1
              full_3pass_count := st0.full_3pass_count + 1 }, 1,
            [(.ptranslate, delimitedOf text)]⟩
          text (pySplit ['\n'] text) (resp 0)) := by
  simp only [translate, initRun]
  rw [if_pos hbatch]
  simp only [translate_batch, callApi, okEnv]
  by_cases hrev : (!cfg.skip_review) = true ∧ cfg.min_review_chars ≤ text.length
  · rw [if_pos hrev, if_pos hrev]
    by_cases hq : is_quality_ok (resp 1) = true
    · simp only [hq, if_true]
      rfl
    · simp only [hq, Bool.false_eq_true, if_false]
      rfl
  · rw [if_neg hrev, if_neg hrev]
    rfl

/-- Claim C1: for every submitted batch unit (`n` paragraphs obtained by
splitting on `"\n"`) and any delimiter-joined model output, the reassembled
result of `_translate_batch` splits on `"\n"` into exactly `n` segments:
one-to-one when the non-empty delimiter-split segment count `m` equals `n`,
with segments from position `n-1` onward merged into the last segment when
`m > n`, and with the missing positions filled by the corresponding original
untranslated paragraphs when `m < n`. -/
theorem c1_batch_reassembly (text translation : List Char) :
    pySplit ['\n'] (reassembleBatch text translation) =
      (if (batchParts translation).length = (pySplit ['\n'] text).length then
        batchParts translation
      else if (pySplit ['\n'] text).length < (batchParts translation).length then
        (batchParts translation).take ((pySplit ['\n'] text).length - 1) ++
          [joinWith [' ']
            ((batchParts translation).drop ((pySplit ['\n'] text).length - 1))]
      else
        (batchParts translation ++
          (pySplit ['\n'] text).drop (batchParts translation).length).take
          (pySplit ['\n'] text).length) ∧
    (pySplit ['\n'] (reassembleBatch text translation)).length =
      (pySplit ['\n'] text).length :=
  assembleParas_spec (pySplit ['\n'] text) translation (pySplit_ne_nil _ _)
    (fun _ hp => not_mem_of_mem_pySplit hp)

/-- The glossary-store invariant of the spec: no stored key starts with the
reserved marker character. -/
def NoReservedKeys (g : Dict) : Prop :=
  ∀ k ∈ g.map Prod.fst, (['_'].isPrefixOf k) = false

instance (g : Dict) : Decidable (NoReservedKeys g) := by
  unfold NoReservedKeys; infer_instance

theorem noReserved_dictUpdate {m new : Dict} (hm : NoReservedKeys m)
    (hnew : ∀ kv ∈ new, (['_'].isPrefixOf kv.1) = false) :
    NoReservedKeys (dictUpdate m new) := by
  intro k hk
  rcases mem_keys_dictUpdate hk with h | h
  · exact hm k h
  · obtain ⟨kv, hkv, hfst⟩ := List.mem_map.mp h
    exact hfst ▸ hnew kv hkv

/-- The glossary after a refresh is either untouched or merged with pairs
that survived the underscore filter. -/
theorem glossaryApply_glossary_cases (jp : List Char → Except Unit Json)
    (st : TState) (r : List Char) :
    (glossaryApply jp st r).glossary = st.glossary ∨
    ∃ valid : Dict, (glossaryApply jp st r).glossary = dictUpdate st.glossary valid ∧
      ∀ kv ∈ valid, (['_'].isPrefixOf kv.1) = false := by
  rcases h1 : stripFenceResp r with _ | r'
  · left; simp [glossaryApply, h1]
  · rcases h2 : jp r' with e | j
    · left; simp [glossaryApply, h1, h2]
    · cases j with
      | jobj fields =>
        simp only [glossaryApply, h1, h2]
        split
        · left; rfl
        · right
          refine ⟨_, rfl, ?_⟩
          intro kv hkv
          simp only [List.mem_filterMap] at hkv
          obtain ⟨⟨k, v⟩, hmem, hv⟩ := hkv
          cases v with
          | jstr s =>
            simp only at hv
            by_cases hc : (k.length < 100 && s.length < 200 &&
                !(['_'].isPrefixOf k)) = true
            · rw [if_pos hc] at hv
              cases hv
              simp only [Bool.and_eq_true, Bool.not_eq_true'] at hc
              exact hc.2
            · rw [if_neg hc] at hv
              cases hv
          | jnum m => simp at hv
          | jbool b => simp at hv
          | jnull => simp at hv
          | jarr a => simp at hv
          | jobj f' => simp at hv
      | jstr s => left; simp [glossaryApply, h1, h2]
      | jnum m => left; simp [glossaryApply, h1, h2]
      | jbool b => left; simp [glossaryApply, h1, h2]
      | jnull => left; simp [glossaryApply, h1, h2]
      | jarr a => left; simp [glossaryApply, h1, h2]

/-- Claim C2, amended: keys merged by the glossary refresh never start with
the reserved marker, so the refresh preserves the invariant; `load_profile`
removes only the literal `"_comment"` key from the seed, so it preserves the
invariant only under the extra assumption that no other seed key starts with
the marker (see the counterexample for the unrestricted claim). -/
theorem c2_glossary_marker_invariant (jp : List Char → Except Unit Json)
    (st : TState) (resp : List Char) (seed : Dict)
    (hg : NoReservedKeys st.glossary)
    (hseed : ∀ kv ∈ seed, kv.1 ≠ "_comment".toList → (['_'].isPrefixOf kv.1) = false) :
    NoReservedKeys (glossaryApply jp st resp).glossary ∧
    NoReservedKeys (loadProfileSeed st.glossary seed) := by
  constructor
  · rcases glossaryApply_glossary_cases jp st resp with h | ⟨valid, heq, hval⟩
    · rw [h]; exact hg
    · rw [heq]; exact noReserved_dictUpdate hg hval
  · refine noReserved_dictUpdate hg ?_
    intro kv hkv
    have h := List.mem_filter.mp hkv
    refine hseed kv h.1 ?_
    intro hcon
    have := h.2
    rw [hcon] at this
    simp at this

/-- Claim C2, witness: the amended invariant at a concrete state, refresh
failure and well-formed seed. -/
theorem c2_glossary_marker_invariant_witness :
    NoReservedKeys (glossaryApply (fun _ => Except.error ()) initialState
      "x".toList).glossary ∧
    NoReservedKeys (loadProfileSeed initialState.glossary
      [("Mordor".toList, "Mordor".toList)]) :=
  c2_glossary_marker_invariant (fun _ => Except.error ()) initialState "x".toList
    [("Mordor".toList, "Mordor".toList)] (by decide) (by decide)

/-- Claim C2, counterexample: the claim as stated is false: a profile seed
key `"_x"` (different from the reserved comment key) is merged into the
glossary by `load_profile`, so a store satisfying the invariant stops
satisfying it. -/
theorem c2_glossary_marker_counterexample :
    NoReservedKeys ([] : Dict) ∧
    ¬ NoReservedKeys (loadProfileSeed [] [("_x".toList, "y".toList)]) := by
  constructor
  · intro k hk; simp at hk
  · intro h
    have := h "_x".toList (by decide)
    simp at this

/-- Claim C9: the formatted glossary snapshot consists of at most 60
alphabetically sorted rendered entries, every one of which comes from the
store and has a source key that does not start with the reserved marker —
even when marker-prefixed entries are present in the store. -/
theorem c9_format_glossary_spec (g : Dict) :
    format_glossary g =
      (if g.isEmpty then []
       else joinWith ['\n'] ((glossaryPairs g).map renderGlossaryLine)) ∧
    (glossaryPairs g).length ≤ 60 ∧
    (∀ kv ∈ glossaryPairs g, (['_'].isPrefixOf kv.1) = false ∧ kv ∈ g) ∧
    List.Sorted pairLe (glossaryPairs g) := by
  refine ⟨?_, ?_, ?_, ?_⟩
  · simp only [format_glossary, glossaryPairs, List.map_take]
  · simp only [glossaryPairs]
    rw [List.length_take]
    exact min_le_left _ _
  · intro kv hkv
    have h1 : kv ∈ (List.insertionSort pairLe g).filter
        (fun kv => !(['_'].isPrefixOf kv.1)) := List.take_subset _ _ hkv
    have h2 := List.mem_filter.mp h1
    constructor
    · simpa using h2.2
    · exact (List.perm_insertionSort pairLe g).mem_iff.mp h2.1
  · exact List.Pairwise.sublist (List.take_sublist _ _)
      (List.Pairwise.filter _ (List.sorted_insertionSort pairLe g))

/-- Claim C5, amended: a glossary-refresh response that fails to parse as
JSON (or loses its body to the code-fence edge case) increments the failure
counter and leaves the glossary unchanged; a response that parses but is not
a JSON object leaves the state entirely unchanged — in particular the
failure counter is NOT incremented, contrary to the claim as stated.  In
both cases the handler is total (no exception escapes) and the translation
of the unit returns its normal result whatever the parse outcome. -/
theorem c5_glossary_refresh_recovery (jp : List Char → Except Unit Json)
    (st : TState) (resp : List Char) :
    (∀ r, stripFenceResp resp = some r → jp r = .error () →
      glossaryApply jp st resp =
        { st with glossary_extract_failures := st.glossary_extract_failures + 1 }) ∧
    (stripFenceResp resp = none →
      glossaryApply jp st resp =
        { st with glossary_extract_failures := st.glossary_extract_failures + 1 }) ∧
    (∀ r j, stripFenceResp resp = some r → jp r = .ok j →
      (∀ fields, j ≠ Json.jobj fields) → glossaryApply jp st resp = st) ∧
    (∀ (cfg : TConfig) (env : Env) (st0 : TState) (text t0 : List Char),
      '\n' ∉ pyStrip text → text.length < cfg.min_review_chars →
      env.oracle 0 = .ok t0 →
      (translate cfg env jp (initRun st0) text).1 = .ok t0) := by
  refine ⟨?_, ?_, ?_, ?_⟩
  · intro r h1 h2
    simp [glossaryApply, h1, h2]
  · intro h1
    simp [glossaryApply, h1]
  · intro r j h1 h2 hobj
    cases j with
    | jobj fields => exact absurd rfl (hobj fields)
    | jstr s => simp [glossaryApply, h1, h2]
    | jnum m => simp [glossaryApply, h1, h2]
    | jbool b => simp [glossaryApply, h1, h2]
    | jnull => simp [glossaryApply, h1, h2]
    | jarr a => simp [glossaryApply, h1, h2]
  · intro cfg env st0 text t0 hsingle hshort h0
    rw [translate_pass1_eq cfg env jp st0 text t0 hsingle (Or.inl hshort) h0]

/-- Claim C5, witness: the amended behaviour at a concrete malformed
response. -/
theorem c5_glossary_refresh_recovery_witness :
    glossaryApply (fun _ => Except.error ()) initialState "x".toList =
      { initialState with glossary_extract_failures :=
          initialState.glossary_extract_failures + 1 } :=
  (c5_glossary_refresh_recovery (fun _ => Except.error ()) initialState
    "x".toList).1 "x".toList (by decide) rfl

/-- Claim C5, counterexample: the claim as stated is false: the response
`"[1]"` is valid JSON but not an object (wrong shape), yet the refresh
leaves the failure counter at 0 instead of incrementing it (the state is
entirely unchanged). -/
theorem c5_glossary_refresh_counterexample :
    glossaryApply
      (fun r => if r = "[1]".toList then Except.ok (Json.jarr [Json.jnum 1])
        else Except.error ())
      initialState "[1]".toList = initialState ∧
    initialState.glossary_extract_failures = 0 := by
  constructor
  · rfl
  · rfl

/-- Claim C6: `_api_call` retries up to the fixed budget of 5 attempts with
backoff `min(60, 2^attempt * base)` where the base is 5 for rate-limit-like
errors and 3 otherwise; a call that fails 4 times and then succeeds returns
the success and records exactly one request, and a call whose 5 attempts all
fail re-raises the final error and records no request. -/
theorem c6_api_call_retry (att1 att2 : Nat → Except ApiError (List Char))
    (errs : Nat → ApiError) (t : List Char)
    (h1 : ∀ i, i < 4 → att1 i = .error (errs i)) (h2 : att1 4 = .ok t)
    (h3 : ∀ i, i < 5 → att2 i = .error (errs i)) :
    api_call att1 API_RETRIES =
      ⟨.ok t, [backoffWait 0 (errs 0), backoffWait 1 (errs 1),
        backoffWait 2 (errs 2), backoffWait 3 (errs 3)], 1⟩ ∧
    api_call att2 API_RETRIES =
      ⟨.error (errs 4), [backoffWait 0 (errs 0), backoffWait 1 (errs 1),
        backoffWait 2 (errs 2), backoffWait 3 (errs 3)], 0⟩ ∧
    (∀ a e, backoffWait a e =
      min 60 (2 ^ a * (if containsSub "RateLimit".toList e.name ||
        containsSub "rate".toList (e.msg.map Char.toLower) then 5 else 3))) := by
  have e0 := h1 0 (by omega)
  have e1 := h1 1 (by omega)
  have e2 := h1 2 (by omega)
  have e3 := h1 3 (by omega)
  have f0 := h3 0 (by omega)
  have f1 := h3 1 (by omega)
  have f2 := h3 2 (by omega)
  have f3 := h3 3 (by omega)
  have f4 := h3 4 (by omega)
  refine ⟨?_, ?_, ?_⟩
  · simp [api_call, API_RETRIES, apiCallGo, e0, e1, e2, e3, h2]
  · simp [api_call, API_RETRIES, apiCallGo, f0, f1, f2, f3, f4]
  · intro a e
    rfl

/-- Claim C6, witness: the retry behaviour at a concrete error and success
sequence (plain errors, base 3: sleeps 3, 6, 12, 24 seconds). -/
theorem c6_api_call_retry_witness :
    api_call (fun i => if i < 4 then Except.error ⟨"E".toList, "m".toList⟩
      else Except.ok "T".toList) API_RETRIES =
      ⟨.ok "T".toList, [3, 6, 12, 24], 1⟩ ∧
    api_call (fun _ => Except.error ⟨"E".toList, "m".toList⟩) API_RETRIES =
      ⟨.error ⟨"E".toList, "m".toList⟩, [3, 6, 12, 24], 0⟩ := by
  have h := c6_api_call_retry
    (fun i => if i < 4 then Except.error ⟨"E".toList, "m".toList⟩
      else Except.ok "T".toList)
    (fun _ => Except.error ⟨"E".toList, "m".toList⟩)
    (fun _ => ⟨"E".toList, "m".toList⟩) "T".toList
    (by intro i hi; simp [hi]) (by simp) (by intro i hi; rfl)
  exact ⟨h.1.trans (by decide), h.2.1.trans (by decide)⟩

theorem countKind_extra_zero {extra : List (PassKind × List Char)}
    (hkinds : ∀ e ∈ extra, e.1 = PassKind.pcontext ∨ e.1 = PassKind.pglossary)
    {k : PassKind} (hk1 : k ≠ PassKind.pcontext) (hk2 : k ≠ PassKind.pglossary) :
    countKind k extra = 0 :=
  countKind_eq_zero (fun e he => by
    rcases hkinds e he with h | h
    · intro hc; exact hk1 (hc.symm.trans h)
    · intro hc; exact hk2 (hc.symm.trans h))

/-- Claim C3, amended: for every unit that is NOT classified as a batch (its
stripped text contains no newline) and whose length is below the
minimum-review-character threshold, `translate` selects Pass-1-only mode:
exactly one translate completion call, no review or refine call, and the
Pass-1-only counter is incremented (the batch-mode counter is not).  The
unrestricted claim is false: batch classification takes precedence over the
length test (see the counterexample). -/
theorem c3_pass1_only_dispatch (cfg : TConfig) (resp : Nat → List Char)
    (jp : List Char → Except Unit Json) (st0 : TState) (text : List Char)
    (hsingle : '\n' ∉ pyStrip text)
    (hshort : text.length < cfg.min_review_chars) :
    countKind .ptranslate
      (translate cfg (okEnv resp) jp (initRun st0) text).2.trace = 1 ∧
    countKind .preview
      (translate cfg (okEnv resp) jp (initRun st0) text).2.trace = 0 ∧
    countKind .prefine
      (translate cfg (okEnv resp) jp (initRun st0) text).2.trace = 0 ∧
    (translate cfg (okEnv resp) jp (initRun st0) text).2.st.pass1_only_count =
      st0.pass1_only_count + 1 ∧
    (translate cfg (okEnv resp) jp (initRun st0) text).2.st.full_3pass_count =
      st0.full_3pass_count ∧
    (translate cfg (okEnv resp) jp (initRun st0) text).1 = .ok (resp 0) := by
  rw [translate_pass1_eq cfg (okEnv resp) jp st0 text (resp 0) hsingle
    (Or.inl hshort) rfl]
  obtain ⟨extra, st', heq, hkinds, hp1, hp3, hro, hrf, hcc⟩ :=
    maybe_update_shape cfg (okEnv resp) jp
      ⟨{ st0 with
          chunk_counter := st0.chunk_counter + 1
          pass1_only_count := st0.pass1_only_count + 1 }, 1,
        [(.ptranslate, text)]⟩ text (resp 0)
  rw [heq]
  refine ⟨?_, ?_, ?_, hp1, hp3, rfl⟩
  · rw [countKind_append, countKind_extra_zero hkinds (by simp) (by simp)]
    rfl
  · rw [countKind_append, countKind_extra_zero hkinds (by simp) (by simp)]
    rfl
  · rw [countKind_append, countKind_extra_zero hkinds (by simp) (by simp)]
    rfl

/-- Claim C3, witness: the amended dispatch at a concrete short single
paragraph. -/
theorem c3_pass1_only_dispatch_witness :
    countKind .ptranslate
      (translate defaultConfig (okEnv fun _ => "T".toList) (fun _ => Except.error ())
        (initRun initialState) "a".toList).2.trace = 1 ∧
    countKind .preview
      (translate defaultConfig (okEnv fun _ => "T".toList) (fun _ => Except.error ())
        (initRun initialState) "a".toList).2.trace = 0 ∧
    countKind .prefine
      (translate defaultConfig (okEnv fun _ => "T".toList) (fun _ => Except.error ())
        (initRun initialState) "a".toList).2.trace = 0 ∧
    (translate defaultConfig (okEnv fun _ => "T".toList) (fun _ => Except.error ())
      (initRun initialState) "a".toList).2.st.pass1_only_count =
      initialState.pass1_only_count + 1 ∧
    (translate defaultConfig (okEnv fun _ => "T".toList) (fun _ => Except.error ())
      (initRun initialState) "a".toList).2.st.full_3pass_count =
      initialState.full_3pass_count ∧
    (translate defaultConfig (okEnv fun _ => "T".toList) (fun _ => Except.error ())
      (initRun initialState) "a".toList).1 = .ok ((fun _ => "T".toList) 0) :=
  c3_pass1_only_dispatch defaultConfig (fun _ => "T".toList) (fun _ => Except.error ())
    initialState "a".toList (by decide) (by decide)

/-- Claim C3, counterexample: the claim as stated is false: the unit
`"a\nb"` is far below the default threshold (3 < 300) yet `translate`
dispatches it to batch mode — the Pass-1-only counter stays 0 and the
3-pass/batch counter is incremented. -/
theorem c3_pass1_only_dispatch_counterexample :
    "a\nb".toList.length < defaultConfig.min_review_chars ∧
    (translate defaultConfig (okEnv fun _ => "x".toList) (fun _ => Except.error ())
      (initRun initialState) "a\nb".toList).2.st.pass1_only_count = 0 ∧
    (translate defaultConfig (okEnv fun _ => "x".toList) (fun _ => Except.error ())
      (initRun initialState) "a\nb".toList).2.st.full_3pass_count = 1 := by
  decide

/-- Claim C4, amended: for a batch unit, when review is not globally
disabled, a review call is issued if and only if the batch's total character
count reaches the minimum-review threshold.  The claim's "gated only by the
threshold" is false because the `skip_review` flag also gates batch review
(see the counterexample). -/
theorem c4_batch_review_gate (cfg : TConfig) (resp : Nat → List Char)
    (jp : List Char → Except Unit Json) (st0 : TState) (text : List Char)
    (hbatch : '\n' ∈ pyStrip text)
    (hsr : cfg.skip_review = false) :
    countKind .preview (translate cfg (okEnv resp) jp (initRun st0) text).2.trace =
      (if cfg.min_review_chars ≤ text.length then 1 else 0) := by
  rw [translate_batch_eq cfg resp jp st0 text hbatch]
  by_cases hlen : cfg.min_review_chars ≤ text.length
  · have hgate : (!cfg.skip_review) = true ∧ cfg.min_review_chars ≤ text.length :=
      ⟨by simp [hsr], hlen⟩
    rw [if_pos hgate, if_pos hlen]
    by_cases hq : is_quality_ok (resp 1) = true
    · rw [if_pos hq]
      simp only [finishBatch]
      obtain ⟨extra, st', heq, hkinds, _, _, _, _, _⟩ :=
        maybe_update_shape cfg (okEnv resp) jp
          ⟨{ st0 with
              chunk_counter := st0.chunk_counter + 1
              full_3pass_count := st0.full_3pass_count + 1
              reviews_ok := st0.reviews_ok + 1 }, 2,
            [(.ptranslate, delimitedOf text), (.preview, delimitedOf text)]⟩
          text (assembleParas (pySplit ['\n'] text) (resp 0))
      rw [heq, countKind_append, countKind_extra_zero hkinds (by simp) (by simp)]
      rfl
    · rw [if_neg hq]
      simp only [finishBatch]
      obtain ⟨extra, st', heq, hkinds, _, _, _, _, _⟩ :=
        maybe_update_shape cfg (okEnv resp) jp
          ⟨{ st0 with
              chunk_counter := st0.chunk_counter + 1
              full_3pass_count := st0.full_3pass_count + 1
              reviews_fixed := st0.reviews_fixed + 1 }, 3,
            [(.ptranslate, delimitedOf text), (.preview, delimitedOf text),
              (.prefine, delimitedOf text)]⟩
          text (assembleParas (pySplit ['\n'] text) (resp 2))
      rw [heq, countKind_append, countKind_extra_zero hkinds (by simp) (by simp)]
      rfl
  · have hngate : ¬((!cfg.skip_review) = true ∧ cfg.min_review_chars ≤ text.length) :=
      fun hc => hlen hc.2
    rw [if_neg hngate, if_neg hlen]
    simp only [finishBatch]
    obtain ⟨extra, st', heq, hkinds, _, _, _, _, _⟩ :=
      maybe_update_shape cfg (okEnv resp) jp
        ⟨{ st0 with
            chunk_counter := st0.chunk_counter + 1
            full_3pass_count := st0.full_3pass_count + 1 }, 1,
          [(.ptranslate, delimitedOf text)]⟩
        text (assembleParas (pySplit ['\n'] text) (resp 0))
    rw [heq, countKind_append, countKind_extra_zero hkinds (by simp) (by simp)]
    rfl

/-- Claim C4, witness: the gate at a concrete batch below and a concrete
batch above the threshold. -/
theorem c4_batch_review_gate_witness :
    countKind .preview
      (translate { defaultConfig with min_review_chars := 0 }
        (okEnv fun _ => "x".toList) (fun _ => Except.error ())
        (initRun initialState) "a\nb".toList).2.trace =
      (if ({ defaultConfig with min_review_chars := 0 } : TConfig).min_review_chars ≤
        "a\nb".toList.length then 1 else 0) :=
  c4_batch_review_gate { defaultConfig with min_review_chars := 0 }
    (fun _ => "x".toList) (fun _ => Except.error ()) initialState "a\nb".toList
    (by decide) rfl

/-- Claim C4, counterexample: the claim as stated is false: with
`skip_review` set, a batch whose total character count is at the threshold
(0) still gets no review call. -/
theorem c4_batch_review_gate_counterexample :
    ({ defaultConfig with skip_review := true, min_review_chars := 0 } : TConfig).min_review_chars ≤
      "a\nb".toList.length ∧
    countKind .preview
      (translate { defaultConfig with skip_review := true, min_review_chars := 0 }
        (okEnv fun _ => "x".toList) (fun _ => Except.error ())
        (initRun initialState) "a\nb".toList).2.trace = 0 := by
  decide

/-- Claim C7: a single-paragraph unit at or above the review threshold (with
review enabled) gets exactly one translate call and one review call, plus a
refine call iff the review output contains no accepted quality sentinel;
with a sentinel the Pass-1 translation is returned and `reviews_ok` is
incremented, otherwise the refine output is returned and `reviews_fixed` is
incremented. -/
theorem c7_full_3pass_behavior (cfg : TConfig) (resp : Nat → List Char)
    (jp : List Char → Except Unit Json) (st0 : TState) (text : List Char)
    (hsingle : '\n' ∉ pyStrip text)
    (hlong : cfg.min_review_chars ≤ text.length)
    (hsr : cfg.skip_review = false) :
    countKind .ptranslate
      (translate cfg (okEnv resp) jp (initRun st0) text).2.trace = 1 ∧
    countKind .preview
      (translate cfg (okEnv resp) jp (initRun st0) text).2.trace = 1 ∧
    countKind .prefine
      (translate cfg (okEnv resp) jp (initRun st0) text).2.trace =
      (if is_quality_ok (resp 1) then 0 else 1) ∧
    (is_quality_ok (resp 1) = true →
      (translate cfg (okEnv resp) jp (initRun st0) text).1 = .ok (resp 0) ∧
      (translate cfg (okEnv resp) jp (initRun st0) text).2.st.reviews_ok =
        st0.reviews_ok + 1 ∧
      (translate cfg (okEnv resp) jp (initRun st0) text).2.st.reviews_fixed =
        st0.reviews_fixed) ∧
    (is_quality_ok (resp 1) = false →
      (translate cfg (okEnv resp) jp (initRun st0) text).1 = .ok (resp 2) ∧
      (translate cfg (okEnv resp) jp (initRun st0) text).2.st.reviews_fixed =
        st0.reviews_fixed + 1 ∧
      (translate cfg (okEnv resp) jp (initRun st0) text).2.st.reviews_ok =
        st0.reviews_ok) := by
  have hdisp : ¬(text.length < cfg.min_review_chars ∨ cfg.skip_review = true) := by
    rw [not_or]
    exact ⟨Nat.not_lt.mpr hlong, by simp [hsr]⟩
  rw [translate_3pass_eq cfg resp jp st0 text hsingle hdisp]
  by_cases hq : is_quality_ok (resp 1) = true
  · rw [if_pos hq]
    obtain ⟨extra, st', heq, hkinds, hp1, hp3, hro, hrf, hcc⟩ :=
      maybe_update_shape cfg (okEnv resp) jp
        ⟨{ st0 with
            chunk_counter := st0.chunk_counter + 1
            full_3pass_count := st0.full_3pass_count + 1
            reviews_ok := st0.reviews_ok + 1 }, 2,
          [(.ptranslate, text), (.preview, text)]⟩ text (resp 0)
    rw [heq]
    refine ⟨?_, ?_, ?_, fun _ => ⟨rfl, hro, hrf⟩, fun hfalse => ?_⟩
    · rw [countKind_append, countKind_extra_zero hkinds (by simp) (by simp)]
      rfl
    · rw [countKind_append, countKind_extra_zero hkinds (by simp) (by simp)]
      rfl
    · rw [if_pos hq, countKind_append,
        countKind_extra_zero hkinds (by simp) (by simp)]
      rfl
    · rw [hq] at hfalse
      cases hfalse
  · rw [if_neg hq]
    obtain ⟨extra, st', heq, hkinds, hp1, hp3, hro, hrf, hcc⟩ :=
      maybe_update_shape cfg (okEnv resp) jp
        ⟨{ st0 with
            chunk_counter := st0.chunk_counter + 1
            full_3pass_count := st0.full_3pass_count + 1
            reviews_fixed := st0.reviews_fixed + 1 }, 3,
          [(.ptranslate, text), (.preview, text), (.prefine, text)]⟩ text (resp 2)
    rw [heq]
    refine ⟨?_, ?_, ?_, fun htrue => absurd htrue hq, fun _ => ⟨rfl, hrf, hro⟩⟩
    · rw [countKind_append, countKind_extra_zero hkinds (by simp) (by simp)]
      rfl
    · rw [countKind_append, countKind_extra_zero hkinds (by simp) (by simp)]
      rfl
    · rw [if_neg hq, countKind_append,
        countKind_extra_zero hkinds (by simp) (by simp)]
      rfl

/-- Claim C7, witness: the 3-pass behaviour at a concrete long paragraph
whose review returns the sentinel. -/
theorem c7_full_3pass_behavior_witness :
    countKind .ptranslate
      (translate { defaultConfig with min_review_chars := 1 }
        (okEnv fun _ => "QUALITY_OK".toList) (fun _ => Except.error ())
        (initRun initialState) "a".toList).2.trace = 1 ∧
    countKind .preview
      (translate { defaultConfig with min_review_chars := 1 }
        (okEnv fun _ => "QUALITY_OK".toList) (fun _ => Except.error ())
        (initRun initialState) "a".toList).2.trace = 1 ∧
    countKind .prefine
      (translate { defaultConfig with min_review_chars := 1 }
        (okEnv fun _ => "QUALITY_OK".toList) (fun _ => Except.error ())
        (initRun initialState) "a".toList).2.trace =
      (if is_quality_ok ((fun _ => "QUALITY_OK".toList) 1) then 0 else 1) ∧
    (is_quality_ok ((fun _ => "QUALITY_OK".toList) 1) = true →
      (translate { defaultConfig with min_review_chars := 1 }
        (okEnv fun _ => "QUALITY_OK".toList) (fun _ => Except.error ())
        (initRun initialState) "a".toList).1 = .ok ((fun _ => "QUALITY_OK".toList) 0) ∧
      (translate { defaultConfig with min_review_chars := 1 }
        (okEnv fun _ => "QUALITY_OK".toList) (fun _ => Except.error ())
        (initRun initialState) "a".toList).2.st.reviews_ok =
        initialState.reviews_ok + 1 ∧
      (translate { defaultConfig with min_review_chars := 1 }
        (okEnv fun _ => "QUALITY_OK".toList) (fun _ => Except.error ())
        (initRun initialState) "a".toList).2.st.reviews_fixed =
        initialState.reviews_fixed) ∧
    (is_quality_ok ((fun _ => "QUALITY_OK".toList) 1) = false →
      (translate { defaultConfig with min_review_chars := 1 }
        (okEnv fun _ => "QUALITY_OK".toList) (fun _ => Except.error ())
        (initRun initialState) "a".toList).1 = .ok ((fun _ => "QUALITY_OK".toList) 2) ∧
      (translate { defaultConfig with min_review_chars := 1 }
        (okEnv fun _ => "QUALITY_OK".toList) (fun _ => Except.error ())
        (initRun initialState) "a".toList).2.st.reviews_fixed =
        initialState.reviews_fixed + 1 ∧
      (translate { defaultConfig with min_review_chars := 1 }
        (okEnv fun _ => "QUALITY_OK".toList) (fun _ => Except.error ())
        (initRun initialState) "a".toList).2.st.reviews_ok =
        initialState.reviews_ok) :=
  c7_full_3pass_behavior { defaultConfig with min_review_chars := 1 }
    (fun _ => "QUALITY_OK".toList) (fun _ => Except.error ()) initialState
    "a".toList (by decide) (by decide) rfl

/-- Claim C8: when the periodic context-refresh call raises, the exception is
caught inside `translate` (the unit's result is still returned normally)
and the stored context summary is exactly what it was before the attempt. -/
theorem c8_context_refresh_failure (cfg : TConfig) (env : Env)
    (jp : List Char → Except Unit Json) (st0 : TState) (text t0 : List Char)
    (e : ApiError)
    (hsingle : '\n' ∉ pyStrip text)
    (hshort : text.length < cfg.min_review_chars)
    (hcf : cfg.context_flag = true)
    (hint : (st0.chunk_counter + 1) % cfg.context_update_interval = 0)
    (h0 : env.oracle 0 = .ok t0) (h1 : env.oracle 1 = .error e) :
    (translate cfg env jp (initRun st0) text).1 = .ok t0 ∧
    (translate cfg env jp (initRun st0) text).2.st.context_summary =
      st0.context_summary := by
  rw [translate_pass1_eq cfg env jp st0 text t0 hsingle (Or.inl hshort) h0]
  exact ⟨rfl, maybe_update_context_error cfg env jp _ text t0 e hcf hint h1⟩

/-- Claim C8, witness: a concrete run in which the context refresh fails. -/
theorem c8_context_refresh_failure_witness :
    (translate { defaultConfig with context_flag := true, context_update_interval := 1 }
      ⟨fun i => if i = 0 then .ok "T".toList else .error ⟨"E".toList, "m".toList⟩⟩
      (fun _ => Except.error ()) (initRun initialState) "a".toList).1 =
      .ok "T".toList ∧
    (translate { defaultConfig with context_flag := true, context_update_interval := 1 }
      ⟨fun i => if i = 0 then .ok "T".toList else .error ⟨"E".toList, "m".toList⟩⟩
      (fun _ => Except.error ()) (initRun initialState) "a".toList).2.st.context_summary =
      initialState.context_summary :=
  c8_context_refresh_failure
    { defaultConfig with context_flag := true, context_update_interval := 1 }
    ⟨fun i => if i = 0 then .ok "T".toList else .error ⟨"E".toList, "m".toList⟩⟩
    (fun _ => Except.error ()) initialState "a".toList "T".toList
    ⟨"E".toList, "m".toList⟩ (by decide) (by decide) rfl (by decide) rfl rfl

/-- Claim C10: `translate` classifies a unit as a batch iff its
whitespace-stripped text contains a newline; a unit whose only newlines are
leading/trailing is dispatched as a single paragraph (Pass-1 receives the
raw unit), while a batch is split on the original unstripped text — Pass-1
receives the delimiter-joined paragraphs of the unstripped split, and the
result has as many newline-separated segments as that unstripped split
(leading/trailing newlines count as empty paragraphs). -/
theorem c10_dispatch_classification (cfg : TConfig) (resp : Nat → List Char)
    (jp : List Char → Except Unit Json) (st0 : TState) (text : List Char) :
    ('\n' ∈ pyStrip text →
      (translate cfg (okEnv resp) jp (initRun st0) text).2.trace.head? =
        some (.ptranslate, delimitedOf text) ∧
      ∃ r, (translate cfg (okEnv resp) jp (initRun st0) text).1 = Except.ok r ∧
        (pySplit ['\n'] r).length = (pySplit ['\n'] text).length) ∧
    ('\n' ∉ pyStrip text →
      (translate cfg (okEnv resp) jp (initRun st0) text).2.trace.head? =
        some (.ptranslate, text)) := by
  constructor
  · intro hbatch
    rw [translate_batch_eq cfg resp jp st0 text hbatch]
    have hcount : ∀ tr : List Char,
        (pySplit ['\n'] (assembleParas (pySplit ['\n'] text) tr)).length =
          (pySplit ['\n'] text).length := fun tr =>
      (assembleParas_spec (pySplit ['\n'] text) tr (pySplit_ne_nil _ _)
        (fun _ hp => not_mem_of_mem_pySplit hp)).2
    by_cases hrev : (!cfg.skip_review) = true ∧ cfg.min_review_chars ≤ text.length
    · rw [if_pos hrev]
      by_cases hq : is_quality_ok (resp 1) = true
      · rw [if_pos hq]
        simp only [finishBatch]
        obtain ⟨extra, st', heq, _, _, _, _, _, _⟩ :=
          maybe_update_shape cfg (okEnv resp) jp
            ⟨{ st0 with
                chunk_counter := st0.chunk_counter + 1
                full_3pass_count := st0.full_3pass_count + 1
                reviews_ok := st0.reviews_ok + 1 }, 2,
              [(.ptranslate, delimitedOf text), (.preview, delimitedOf text)]⟩
            text (assembleParas (pySplit ['\n'] text) (resp 0))
        rw [heq]
        exact ⟨rfl, assembleParas (pySplit ['\n'] text) (resp 0), rfl, hcount _⟩
      · rw [if_neg hq]
        simp only [finishBatch]
        obtain ⟨extra, st', heq, _, _, _, _, _, _⟩ :=
          maybe_update_shape cfg (okEnv resp) jp
            ⟨{ st0 with
                chunk_counter := st0.chunk_counter + 1
                full_3pass_count := st0.full_3pass_count + 1
                reviews_fixed := st0.reviews_fixed + 1 }, 3,
              [(.ptranslate, delimitedOf text), (.preview, delimitedOf text),
                (.prefine, delimitedOf text)]⟩
            text (assembleParas (pySplit ['\n'] text) (resp 2))
        rw [heq]
        exact ⟨rfl, assembleParas (pySplit ['\n'] text) (resp 2), rfl, hcount _⟩
    · rw [if_neg hrev]
      simp only [finishBatch]
      obtain ⟨extra, st', heq, _, _, _, _, _, _⟩ :=
        maybe_update_shape cfg (okEnv resp) jp
          ⟨{ st0 with
              chunk_counter := st0.chunk_counter + 1
              full_3pass_count := st0.full_3pass_count + 1 }, 1,
            [(.ptranslate, delimitedOf text)]⟩
          text (assembleParas (pySplit ['\n'] text) (resp 0))
      rw [heq]
      exact ⟨rfl, assembleParas (pySplit ['\n'] text) (resp 0), rfl, hcount _⟩
  · intro hsingle
    by_cases hdisp : text.length < cfg.min_review_chars ∨ cfg.skip_review = true
    · rw [translate_pass1_eq cfg (okEnv resp) jp st0 text (resp 0) hsingle hdisp rfl]
      obtain ⟨extra, st', heq, _, _, _, _, _, _⟩ :=
        maybe_update_shape cfg (okEnv resp) jp
          ⟨{ st0 with
              chunk_counter := st0.chunk_counter + 1
              pass1_only_count := st0.pass1_only_count + 1 }, 1,
            [(.ptranslate, text)]⟩ text (resp 0)
      rw [heq]
      rfl
    · rw [translate_3pass_eq cfg resp jp st0 text hsingle hdisp]
      by_cases hq : is_quality_ok (resp 1) = true
      · rw [if_pos hq]
        obtain ⟨extra, st', heq, _, _, _, _, _, _⟩ :=
          maybe_update_shape cfg (okEnv resp) jp
            ⟨{ st0 with
                chunk_counter := st0.chunk_counter + 1
                full_3pass_count := st0.full_3pass_count + 1
                reviews_ok := st0.reviews_ok + 1 }, 2,
              [(.ptranslate, text), (.preview, text)]⟩ text (resp 0)
        rw [heq]
        rfl
      · rw [if_neg hq]
        obtain ⟨extra, st', heq, _, _, _, _, _, _⟩ :=
          maybe_update_shape cfg (okEnv resp) jp
            ⟨{ st0 with
                chunk_counter := st0.chunk_counter + 1
                full_3pass_count := st0.full_3pass_count + 1
                reviews_fixed := st0.reviews_fixed + 1 }, 3,
              [(.ptranslate, text), (.preview, text), (.prefine, text)]⟩
            text (resp 2)
        rw [heq]
        rfl

/-- Claim C10, witness: a unit whose only newlines are leading and trailing
is dispatched as a single paragraph — Pass-1 receives the raw unit. -/
theorem c10_dispatch_classification_witness :
    (translate defaultConfig (okEnv fun _ => "x".toList) (fun _ => Except.error ())
      (initRun initialState) "\na\n".toList).2.trace.head? =
      some (.ptranslate, "\na\n".toList) :=
  (c10_dispatch_classification defaultConfig (fun _ => "x".toList)
    (fun _ => Except.error ()) initialState "\na\n".toList).2 (by decide)

end ThreePass
